import Mathlib

/-!
Verification of the checkpointed adversarial training orchestrator in
`train_GAN.py` (AdversarialOmniPose).

Shallow embedding conventions:
- torch tensors that feed the loss functions are flattened into `List ℝ`;
  `.mean()` is sum divided by length, `torch.log` is `Real.log` applied
  elementwise.
- state dicts are association lists from parameter names to tensors whose
  values are rationals (exact, decidable); only the shape matters for the
  merge logic.
- fallible Python code (undefined-name lookups, division by zero) is
  embedded in `Except String`.
-/

namespace TrainGAN

/-! ### Adversarial loss engine (`_get_loss_disc`, `get_loss_disc`,
`get_loss_gen`, lines 241-262 of train_GAN.py) -/

/-- The stabilizer `eps = 1e-5` used by `_get_loss_disc`. The tensor
arithmetic is embedded over `ℝ` because `torch.log` is the real logarithm,
so these definitions are necessarily noncomputable. -/
noncomputable def eps : ℝ := 1 / 100000

/-- Elementwise mean of a flattened tensor: `t.mean()`. -/
noncomputable def tmean (xs : List ℝ) : ℝ := xs.sum / xs.length

/-- Embedding of `_get_loss_disc(disc_output, real, eps=1e-5)`:
`-torch.log(eps + disc_output).mean()` when `real` is true, and
`-torch.log(eps + 1 - disc_output).mean()` otherwise. -/
noncomputable def _get_loss_disc (disc_output : List ℝ) (real : Bool) : ℝ :=
  if real then
    -(tmean (disc_output.map (fun x => Real.log (eps + x))))
  else
    -(tmean (disc_output.map (fun x => Real.log (eps + 1 - x))))

/-- Embedding of `get_loss_disc(disc_fake, disc_real)`:
`_get_loss_disc(disc_fake, real=False) + _get_loss_disc(disc_real, real=True)`. -/
noncomputable def get_loss_disc (disc_fake disc_real : List ℝ) : ℝ :=
  _get_loss_disc disc_fake false + _get_loss_disc disc_real true

/-- Embedding of `get_loss_gen(outputs, disc_fake, target)`:
`((outputs - target)**2).mean() + _get_loss_disc(disc_fake, real=True)`.
Elementwise subtraction of equally-shaped tensors is `zipWith`. -/
noncomputable def get_loss_gen (outputs disc_fake target : List ℝ) : ℝ :=
  tmean (List.zipWith (fun o t => (o - t) ^ 2) outputs target)
    + _get_loss_disc disc_fake true

/-! ### State dicts and the resume logic (lines 137-171 of train_GAN.py) -/

/-- A tensor for the state-dict logic: only its shape and (exact, rational)
payload matter to the merge. -/
structure Tensor where
  shape : List ℕ
  vals : List ℚ
deriving DecidableEq

/-- A PyTorch state dict: an ordered mapping from parameter names to
tensors (Python dicts preserve insertion order and have unique keys). -/
abbrev StateDict := List (String × Tensor)

/-- Dictionary lookup `d[k]` / membership `k in d` (first match). -/
def sfind (d : StateDict) (k : String) : Option Tensor :=
  match d with
  | [] => none
  | (k2, t) :: rest => if k2 = k then some t else sfind rest k

/-- Embedding of the merge loop at lines 145-151 (and its copy at lines
155-161): for each key `k` of the live module's state dict, keep the saved
tensor when `k in saved` and the sizes agree, and drop it otherwise. -/
def mergeStateDict (live saved : StateDict) : StateDict :=
  match live with
  | [] => []
  | (k, t) :: rest =>
    match sfind saved k with
    | some ts =>
      if t.shape = ts.shape then (k, ts) :: mergeStateDict rest saved
      else mergeStateDict rest saved
    | none => mergeStateDict rest saved

/-- The keys reported as `Skipped loading parameter {k}` by the same loop:
live keys that are absent from the saved dict or have a different shape. -/
def skippedKeys (live saved : StateDict) : List String :=
  match live with
  | [] => []
  | (k, t) :: rest =>
    match sfind saved k with
    | some ts =>
      if t.shape = ts.shape then skippedKeys rest saved
      else k :: skippedKeys rest saved
    | none => k :: skippedKeys rest saved

/-- The size check `load_state_dict` performs on every provided key that
names a parameter of the live module; PyTorch raises on a size mismatch
even with `strict=False`. -/
def sizeCompatible (live given : StateDict) : Bool :=
  given.all fun p =>
    match sfind live p.1 with
    | some tl => tl.shape == p.2.shape
    | none => true

/-- The state update performed by a successful `load_state_dict`: every
live parameter whose name appears in the given dict takes the given value;
all other live parameters are unchanged. -/
def applyLoad (live given : StateDict) : StateDict :=
  match live with
  | [] => []
  | (k, t) :: rest =>
    (match sfind given k with
     | some t2 => (k, t2)
     | none => (k, t)) :: applyLoad rest given

/-- Embedding of `module.load_state_dict(given, strict=False)`: with
`strict=False` missing and unexpected keys are ignored, but a size
mismatch on a shared key still raises a `RuntimeError`. -/
def load_state_dict (live given : StateDict) : Except String StateDict :=
  if sizeCompatible live given then Except.ok (applyLoad live given)
  else Except.error "RuntimeError: size mismatch in load_state_dict"

/-- The two models as restored by the resume block. -/
structure ResumeModels where
  model : StateDict
  discriminator : StateDict
deriving DecidableEq

/-- Embedding of the model/discriminator restore at lines 145-163 of
train_GAN.py. Note the second load at line 163: the source calls
`model.load_state_dict(new_discriminator_dict, strict=False)`, so the
merged discriminator dict is applied to the generator model, and the
discriminator module itself is never loaded into. -/
def resumeModelStates (model discriminator savedModel savedDisc : StateDict) :
    Except String ResumeModels := do
  let new_model_state_dict := mergeStateDict model savedModel
  let model1 ← load_state_dict model new_model_state_dict
  let new_discriminator_dict := mergeStateDict discriminator savedDisc
  let model2 ← load_state_dict model1 new_discriminator_dict
  pure ⟨model2, discriminator⟩

/-- Concrete freshly-initialized discriminator state for the C2 instance. -/
def freshDisc : StateDict := [("disc.weight", ⟨[2], [0, 0]⟩)]

/-- Concrete saved discriminator state: same key, same shape, different
values. -/
def savedDisc : StateDict := [("disc.weight", ⟨[2], [5, 7]⟩)]

/-- Concrete freshly-initialized generator model state for the C2 instance. -/
def freshModel : StateDict := [("model.weight", ⟨[1], [1]⟩)]


/-! ### Learning-rate schedule replay (lines 173-186 of train_GAN.py) -/

/-- MultiStepLR state: the internal epoch counter and the current learning
rate. The learning rate is embedded over `ℚ` (exact arithmetic). -/
structure LRSched where
  lastEpoch : ℤ
  lr : ℚ
deriving DecidableEq

/-- One `lr_scheduler.step()`: increment the internal epoch counter and
multiply the learning rate by `gamma` once per occurrence of the new
counter value in the milestone list. -/
def schedStep (milestones : List ℤ) (gamma : ℚ) (s : LRSched) : LRSched :=
  ⟨s.lastEpoch + 1, s.lr * gamma ^ (milestones.count (s.lastEpoch + 1))⟩

/-- Construction of `torch.optim.lr_scheduler.MultiStepLR(optimizer,
LR_STEP, LR_FACTOR, last_epoch=-1)`: the constructor performs one initial
step from counter `-1` to counter `0`. -/
def MultiStepLR (milestones : List ℤ) (gamma initLR : ℚ) : LRSched :=
  schedStep milestones gamma ⟨-1, initLR⟩

/-- Iterated `step()`. -/
def stepN (milestones : List ℤ) (gamma : ℚ) (n : ℕ) (s : LRSched) : LRSched :=
  match n with
  | 0 => s
  | m + 1 => stepN milestones gamma m (schedStep milestones gamma s)

/-- Embedding of the replay loop `for i in range(last_epoch):
lr_scheduler.step()` at lines 178-179: `range` of a negative integer is
empty, so `last_epoch = -1` (fresh start) replays zero steps. -/
def replayScheduler (milestones : List ℤ) (gamma : ℚ) (lastEpoch : ℤ)
    (s : LRSched) : LRSched :=
  stepN milestones gamma lastEpoch.toNat s

/-- Scheduler state observed inside the body of epoch `n` of the loop at
lines 185-186: the scheduler is built (line 173), replayed `lastEpoch`
times (lines 178-179), and then stepped once at the top of each epoch
`beginEpoch, ..., n` (line 186). -/
def schedAtEntry (milestones : List ℤ) (gamma initLR : ℚ)
    (beginEpoch : ℕ) (lastEpoch : ℤ) (n : ℕ) : LRSched :=
  stepN milestones gamma (n - beginEpoch + 1)
    (replayScheduler milestones gamma lastEpoch
      (MultiStepLR milestones gamma initLR))

/-! ### Best-model tracking and the per-epoch state of `main`
(lines 126-129 and 204-229 of train_GAN.py) -/

/-- The per-epoch mutable state of `main`: the incumbent best metric, the
secondary best metric reported as PCKh at 0.1, and the `best_model` flag. -/
structure MainState where
  best_perf : ℚ
  best_perf_01 : ℚ
  best_model : Bool
deriving DecidableEq

/-- Initialization at lines 126-128: `best_perf = 0.0`,
`best_perf_01 = 0.0`, `best_model = False`. -/
def initMainState : MainState := ⟨0, 0, false⟩

/-- Line 207: the per-epoch secondary indicator is the constant 0. -/
def perf_indicator_01 : ℚ := 0

/-- Embedding of the epoch-end decision at lines 209-227: when
`perf_indicator >= best_perf` the incumbents are updated, `best_model` is
set, and a checkpoint is written (the returned Bool); otherwise
`best_model` is cleared and nothing is written. -/
def epochEndUpdate (perf : ℚ) (s : MainState) : MainState × Bool :=
  if s.best_perf ≤ perf then (⟨perf, perf_indicator_01, true⟩, true)
  else (⟨s.best_perf, s.best_perf_01, false⟩, false)

/-- The epoch loop of `main` threaded over the sequence of validation
metrics produced by successive epochs. -/
def runEpochs (perfs : List ℚ) (s : MainState) : MainState :=
  match perfs with
  | [] => s
  | p :: rest => runEpochs rest (epochEndUpdate p s).1

/-! ### The GAN training loop `train_GAN` (lines 276-317 of train_GAN.py) -/

/-- Observable optimizer operations of the per-batch loop body, in program
order. -/
inductive GanEvent where
  | discZeroGrad
  | discOptStep
  | genZeroGrad
  | genOptStep
deriving DecidableEq

/-- One batch yielded by the train loader: the image tensor and the target
heatmaps, flattened. -/
structure GanBatch where
  input : List ℝ
  target : List ℝ

/-- The name `input_resized` read at line 300 of train_GAN.py is never
assigned anywhere in `train_GAN` (or the module), so evaluating it raises
`NameError`. -/
def input_resized : Except String (List ℝ) :=
  Except.error "NameError: name input_resized is not defined"

/-- Embedding of the loop body at lines 295-315: discriminator phase
(zero grads, generator forward, two discriminator forwards, loss, step)
followed by the generator phase (zero grads, fresh forward, discriminator
forward, loss, step). Channel concatenation of flattened tensors is list
append. The fake discriminator input at line 300 reads the undefined
`input_resized`, so the body stops there; the events produced before the
failure are returned alongside the error. -/
noncomputable def ganBatchStep (model disc : List ℝ → List ℝ)
    (b : GanBatch) : List GanEvent × Except String (ℝ × ℝ) :=
  let evs := [GanEvent.discZeroGrad]
  let outputs := model b.input
  let disc_real := disc (b.target ++ b.input)
  match input_resized with
  | Except.error e => (evs, Except.error e)
  | Except.ok resized =>
    let disc_fake := disc (outputs ++ resized)
    let loss_disc := get_loss_disc disc_fake disc_real
    let evs2 := evs ++ [GanEvent.discOptStep, GanEvent.genZeroGrad]
    let outputs2 := model b.input
    let disc_fake2 := disc (outputs2 ++ b.input)
    let loss_gen := get_loss_gen outputs2 disc_fake2 b.target
    (evs2 ++ [GanEvent.genOptStep], Except.ok (loss_disc, loss_gen))

/-- The mutable state of one `train_GAN` epoch: emitted events, the two
running loss totals, and the last value taken by the `enumerate` counter
`i` (none before the first iteration, matching Python's unbound name). -/
structure GanEpochState where
  events : List GanEvent
  avg_disc_loss : ℝ
  avg_gen_loss : ℝ
  i : Option ℕ

/-- The `for i, (input, target, target_weight, meta) in enumerate(tbar)`
loop at lines 294-315: `i` is bound at the top of each iteration, the loss
totals are accumulated, and an exception inside the body aborts the loop. -/
noncomputable def ganEpochLoop (model disc : List ℝ → List ℝ)
    (batches : List GanBatch) (idx : ℕ) (st : GanEpochState) :
    GanEpochState × Except String Unit :=
  match batches with
  | [] => (st, Except.ok ())
  | b :: rest =>
    let step := ganBatchStep model disc b
    match step.2 with
    | Except.error e =>
      ({ st with events := st.events ++ step.1, i := some idx },
        Except.error e)
    | Except.ok losses =>
      ganEpochLoop model disc rest (idx + 1)
        { events := st.events ++ step.1,
          avg_disc_loss := st.avg_disc_loss + losses.1,
          avg_gen_loss := st.avg_gen_loss + losses.2,
          i := some idx }

/-- Embedding of `train_GAN` (lines 276-317): run the per-batch loop and
then evaluate the report `print(f"loss gen: {avg_gen_loss / i}, loss disc:
{avg_disc_loss / i}")` at line 317, which reads the loop counter `i`: with
zero batches `i` is unbound (`NameError`), with one batch `i = 0`
(`ZeroDivisionError`), and otherwise the totals are divided by `i`, the
batch count minus one. -/
noncomputable def train_GAN (model disc : List ℝ → List ℝ)
    (batches : List GanBatch) : Except String (ℝ × ℝ) :=
  let run := ganEpochLoop model disc batches 0 ⟨[], 0, 0, none⟩
  match run.2 with
  | Except.error e => Except.error e
  | Except.ok _ =>
    match run.1.i with
    | none => Except.error "NameError: name i is not defined"
    | some 0 => Except.error "ZeroDivisionError: division by zero"
    | some n => Except.ok (run.1.avg_gen_loss / n, run.1.avg_disc_loss / n)

/-! ### Helper lemmas about `tmean` -/

theorem tmean_singleton (x : ℝ) : tmean [x] = x := by
  simp [tmean]

theorem sum_neg_of_forall_neg (xs : List ℝ) (hne : xs ≠ [])
    (h : ∀ x ∈ xs, x < 0) : xs.sum < 0 := by
  induction xs with
  | nil => exact absurd rfl hne
  | cons a tl ih =>
    rcases List.eq_nil_or_concat tl with htl | _
    · subst htl
      simpa using h a (by simp)
    · by_cases hnil : tl = []
      · subst hnil
        simpa using h a (by simp)
      · have ha : a < 0 := h a (by simp)
        have hs : tl.sum < 0 := ih hnil (fun x hx => h x (by simp [hx]))
        simpa using add_neg ha hs

theorem tmean_neg_of_forall_neg (xs : List ℝ) (hne : xs ≠ [])
    (h : ∀ x ∈ xs, x < 0) : tmean xs < 0 := by
  have hsum : xs.sum < 0 := sum_neg_of_forall_neg xs hne h
  have hlen : (0 : ℝ) < xs.length := by
    have : 0 < xs.length := List.length_pos.mpr hne
    exact_mod_cast this
  exact div_neg_of_neg_of_pos hsum hlen

/-! ### Lemmas about the merge/skip/load machinery -/

theorem sfind_merge_none_of_live_none (live saved : StateDict) (k : String)
    (h : sfind live k = none) :
    sfind (mergeStateDict live saved) k = none := by
  induction live with
  | nil => rfl
  | cons p rest ih =>
    obtain ⟨k2, t⟩ := p
    simp only [sfind] at h
    by_cases hk2 : k2 = k
    · simp [hk2] at h
    · simp only [if_neg hk2] at h
      simp only [mergeStateDict]
      cases hs : sfind saved k2 with
      | none => exact ih h
      | some ts =>
        by_cases hsh : t.shape = ts.shape
        · simp only [if_pos hsh, sfind, if_neg hk2]
          exact ih h
        · simp only [if_neg hsh]
          exact ih h

theorem sfind_none_of_not_mem_keys (d : StateDict) (k : String)
    (h : k ∉ d.map Prod.fst) : sfind d k = none := by
  induction d with
  | nil => rfl
  | cons p rest ih =>
    obtain ⟨k2, t⟩ := p
    simp only [List.map_cons, List.mem_cons] at h
    push_neg at h
    have hne : k2 ≠ k := Ne.symm h.1
    simp only [sfind, if_neg hne]
    exact ih h.2

theorem sfind_merge_of_compat (live saved : StateDict) (k : String)
    (tl ts : Tensor) (hnd : (live.map Prod.fst).Nodup)
    (hl : sfind live k = some tl) (hs : sfind saved k = some ts)
    (hsh : tl.shape = ts.shape) :
    sfind (mergeStateDict live saved) k = some ts := by
  induction live with
  | nil => simp [sfind] at hl
  | cons p rest ih =>
    obtain ⟨k2, t⟩ := p
    simp only [List.map_cons, List.nodup_cons] at hnd
    simp only [sfind] at hl
    by_cases hk2 : k2 = k
    · subst hk2
      simp only [if_pos rfl] at hl
      injection hl with hl
      subst hl
      simp only [mergeStateDict, hs, if_pos hsh]
      simp [sfind]
    · simp only [if_neg hk2] at hl
      have hrec := ih hnd.2 hl
      simp only [mergeStateDict]
      cases hs2 : sfind saved k2 with
      | none => exact hrec
      | some ts2 =>
        by_cases hsh2 : t.shape = ts2.shape
        · simp only [if_pos hsh2, sfind, if_neg hk2]
          exact hrec
        · simp only [if_neg hsh2]
          exact hrec

theorem sfind_merge_none_of_incompat (live saved : StateDict) (k : String)
    (hnd : (live.map Prod.fst).Nodup)
    (h : ∀ tl ts, sfind live k = some tl → sfind saved k = some ts →
      tl.shape ≠ ts.shape) :
    sfind (mergeStateDict live saved) k = none := by
  induction live with
  | nil => rfl
  | cons p rest ih =>
    obtain ⟨k2, t⟩ := p
    simp only [List.map_cons, List.nodup_cons] at hnd
    by_cases hk2 : k2 = k
    · subst hk2
      have hrest : sfind rest k2 = none :=
        sfind_none_of_not_mem_keys rest k2 hnd.1
      simp only [mergeStateDict]
      cases hs : sfind saved k2 with
      | none => exact sfind_merge_none_of_live_none rest saved k2 hrest
      | some ts =>
        have hne : t.shape ≠ ts.shape := by
          exact h t ts (by simp [sfind]) hs
        simp only [if_neg hne]
        exact sfind_merge_none_of_live_none rest saved k2 hrest
    · have hrec : sfind (mergeStateDict rest saved) k = none := by
        apply ih hnd.2
        intro tl ts hl hs
        apply h tl ts _ hs
        simp only [sfind, if_neg hk2]
        exact hl
      simp only [mergeStateDict]
      cases hs2 : sfind saved k2 with
      | none => exact hrec
      | some ts2 =>
        by_cases hsh2 : t.shape = ts2.shape
        · simp only [if_pos hsh2, sfind, if_neg hk2]
          exact hrec
        · simp only [if_neg hsh2]
          exact hrec

theorem sfind_applyLoad_given (live given : StateDict) (k : String)
    (tl t2 : Tensor) (hl : sfind live k = some tl)
    (hg : sfind given k = some t2) :
    sfind (applyLoad live given) k = some t2 := by
  induction live with
  | nil => simp [sfind] at hl
  | cons p rest ih =>
    obtain ⟨k2, t⟩ := p
    simp only [sfind] at hl
    by_cases hk2 : k2 = k
    · subst hk2
      simp only [applyLoad, hg]
      simp [sfind]
    · simp only [if_neg hk2] at hl
      simp only [applyLoad]
      cases hg2 : sfind given k2 with
      | none => simpa [sfind, if_neg hk2] using ih hl
      | some t3 => simpa [sfind, if_neg hk2] using ih hl

theorem sfind_applyLoad_not_given (live given : StateDict) (k : String)
    (tl : Tensor) (hl : sfind live k = some tl)
    (hg : sfind given k = none) :
    sfind (applyLoad live given) k = some tl := by
  induction live with
  | nil => simp [sfind] at hl
  | cons p rest ih =>
    obtain ⟨k2, t⟩ := p
    simp only [sfind] at hl
    by_cases hk2 : k2 = k
    · subst hk2
      simp only [if_pos rfl] at hl
      injection hl with hl
      subst hl
      simp only [applyLoad, hg]
      simp [sfind]
    · simp only [if_neg hk2] at hl
      simp only [applyLoad]
      cases hg2 : sfind given k2 with
      | none => simpa [sfind, if_neg hk2] using ih hl
      | some t3 => simpa [sfind, if_neg hk2] using ih hl

theorem mem_skipped_of_mismatch (live saved : StateDict) (k : String)
    (tl ts : Tensor) (hl : sfind live k = some tl)
    (hs : sfind saved k = some ts) (hsh : tl.shape ≠ ts.shape) :
    k ∈ skippedKeys live saved := by
  induction live with
  | nil => simp [sfind] at hl
  | cons p rest ih =>
    obtain ⟨k2, t⟩ := p
    simp only [sfind] at hl
    by_cases hk2 : k2 = k
    · subst hk2
      simp only [if_pos rfl] at hl
      injection hl with hl
      subst hl
      simp only [skippedKeys, hs, if_neg hsh]
      simp
    · simp only [if_neg hk2] at hl
      have hrec := ih hl
      simp only [skippedKeys]
      cases hs2 : sfind saved k2 with
      | none => simp [hrec]
      | some ts2 =>
        by_cases hsh2 : t.shape = ts2.shape
        · simp only [if_pos hsh2]
          exact hrec
        · simp only [if_neg hsh2]
          simp [hrec]

theorem mem_skipped_of_absent (live saved : StateDict) (k : String)
    (tl : Tensor) (hl : sfind live k = some tl)
    (hs : sfind saved k = none) :
    k ∈ skippedKeys live saved := by
  induction live with
  | nil => simp [sfind] at hl
  | cons p rest ih =>
    obtain ⟨k2, t⟩ := p
    simp only [sfind] at hl
    by_cases hk2 : k2 = k
    · subst hk2
      simp only [skippedKeys, hs]
      simp
    · simp only [if_neg hk2] at hl
      have hrec := ih hl
      simp only [skippedKeys]
      cases hs2 : sfind saved k2 with
      | none => simp [hrec]
      | some ts2 =>
        by_cases hsh2 : t.shape = ts2.shape
        · simp only [if_pos hsh2]
          exact hrec
        · simp only [if_neg hsh2]
          simp [hrec]

theorem mem_keys_of_mem_skipped (live saved : StateDict) (k : String)
    (h : k ∈ skippedKeys live saved) : k ∈ live.map Prod.fst := by
  induction live with
  | nil => simp [skippedKeys] at h
  | cons p rest ih =>
    obtain ⟨k2, t⟩ := p
    simp only [skippedKeys] at h
    simp only [List.map_cons, List.mem_cons]
    cases hs2 : sfind saved k2 with
    | none =>
      rw [hs2] at h
      rcases List.mem_cons.mp h with h | h
      · exact Or.inl h
      · exact Or.inr (ih h)
    | some ts2 =>
      by_cases hsh2 : t.shape = ts2.shape
      · simp only [hs2, if_pos hsh2] at h
        exact Or.inr (ih h)
      · simp only [hs2, if_neg hsh2] at h
        rcases List.mem_cons.mp h with h | h
        · exact Or.inl h
        · exact Or.inr (ih h)

theorem not_mem_skipped_of_compat (live saved : StateDict) (k : String)
    (tl ts : Tensor) (hnd : (live.map Prod.fst).Nodup)
    (hl : sfind live k = some tl) (hs : sfind saved k = some ts)
    (hsh : tl.shape = ts.shape) :
    k ∉ skippedKeys live saved := by
  induction live with
  | nil => simp [skippedKeys]
  | cons p rest ih =>
    obtain ⟨k2, t⟩ := p
    simp only [List.map_cons, List.nodup_cons] at hnd
    simp only [sfind] at hl
    by_cases hk2 : k2 = k
    · subst hk2
      simp only [if_pos rfl] at hl
      injection hl with hl
      subst hl
      simp only [skippedKeys, hs, if_pos hsh]
      intro hmem
      exact hnd.1 (mem_keys_of_mem_skipped rest saved k2 hmem)
    · simp only [if_neg hk2] at hl
      have hrec := ih hnd.2 hl
      simp only [skippedKeys]
      cases hs2 : sfind saved k2 with
      | none =>
        intro hmem
        rcases List.mem_cons.mp hmem with h | h
        · exact hk2 h.symm
        · exact hrec h
      | some ts2 =>
        by_cases hsh2 : t.shape = ts2.shape
        · simp only [if_pos hsh2]
          exact hrec
        · simp only [if_neg hsh2]
          intro hmem
          rcases List.mem_cons.mp hmem with h | h
          · exact hk2 h.symm
          · exact hrec h

theorem sfind_eq_some_of_mem_nodup (d : StateDict) (k : String) (t : Tensor)
    (hnd : (d.map Prod.fst).Nodup) (hmem : (k, t) ∈ d) :
    sfind d k = some t := by
  induction d with
  | nil => simp at hmem
  | cons p rest ih =>
    obtain ⟨k2, t2⟩ := p
    simp only [List.map_cons, List.nodup_cons] at hnd
    rcases List.mem_cons.mp hmem with h | h
    · injection h with h1 h2
      subst h1
      subst h2
      simp [sfind]
    · have hne : k2 ≠ k := by
        intro hk
        subst hk
        exact hnd.1 (List.mem_map.mpr ⟨(k2, t), h, rfl⟩)
      simp only [sfind, if_neg hne]
      exact ih hnd.2 h

theorem mem_merge_shape (live saved : StateDict) (k : String) (ts : Tensor)
    (hmem : (k, ts) ∈ mergeStateDict live saved) :
    ∃ tl, (k, tl) ∈ live ∧ tl.shape = ts.shape := by
  induction live with
  | nil => simp [mergeStateDict] at hmem
  | cons p rest ih =>
    obtain ⟨k2, t⟩ := p
    simp only [mergeStateDict] at hmem
    cases hs2 : sfind saved k2 with
    | none =>
      rw [hs2] at hmem
      rcases ih hmem with ⟨tl, htl, hsh⟩
      exact ⟨tl, List.mem_cons_of_mem _ htl, hsh⟩
    | some ts2 =>
      by_cases hsh2 : t.shape = ts2.shape
      · simp only [hs2, if_pos hsh2] at hmem
        rcases List.mem_cons.mp hmem with h | h
        · injection h with h1 h2
          subst h1
          subst h2
          exact ⟨t, List.mem_cons_self _ _, hsh2⟩
        · rcases ih h with ⟨tl, htl, hsh⟩
          exact ⟨tl, List.mem_cons_of_mem _ htl, hsh⟩
      · simp only [hs2, if_neg hsh2] at hmem
        rcases ih hmem with ⟨tl, htl, hsh⟩
        exact ⟨tl, List.mem_cons_of_mem _ htl, hsh⟩

theorem sizeCompatible_merge (live saved : StateDict)
    (hnd : (live.map Prod.fst).Nodup) :
    sizeCompatible live (mergeStateDict live saved) = true := by
  rw [sizeCompatible, List.all_eq_true]
  intro p hp
  obtain ⟨k, ts⟩ := p
  rcases mem_merge_shape live saved k ts hp with ⟨tl, hmem, hsh⟩
  have hfind : sfind live k = some tl := sfind_eq_some_of_mem_nodup live k tl hnd hmem
  simp only [hfind]
  simpa using hsh

/-! ### Remaining helper lemmas -/

theorem stepN_schedStep_comm (milestones : List ℤ) (gamma : ℚ) (n : ℕ)
    (s : LRSched) :
    stepN milestones gamma n (schedStep milestones gamma s)
      = schedStep milestones gamma (stepN milestones gamma n s) := by
  induction n generalizing s with
  | zero => rfl
  | succ m ih =>
    simp only [stepN]
    exact ih (schedStep milestones gamma s)

theorem runEpochs_best_perf_01_invariant (perfs : List ℚ) (s : MainState)
    (h : s.best_perf_01 = 0) : (runEpochs perfs s).best_perf_01 = 0 := by
  induction perfs generalizing s with
  | nil => exact h
  | cons p rest ih =>
    simp only [runEpochs]
    apply ih
    by_cases hp : s.best_perf ≤ p
    · simp [epochEndUpdate, if_pos hp, perf_indicator_01]
    · simp [epochEndUpdate, if_neg hp, h]

/-! ### Claim theorems for the loss engine -/

/-- C3: `get_loss_disc(disc_fake, disc_real)` equals
`-mean(log(eps + disc_real)) + (-mean(log(eps + 1 - disc_fake)))` with
`eps = 1e-5`, and each summand is exactly the shared stabilized-log helper
`_get_loss_disc` applied with the corresponding boolean `real` flag. -/
theorem C3_discriminator_loss_formula (disc_fake disc_real : List ℝ) :
    get_loss_disc disc_fake disc_real
      = -(tmean (disc_real.map (fun x => Real.log (eps + x))))
        + -(tmean (disc_fake.map (fun x => Real.log (eps + 1 - x))))
    ∧ get_loss_disc disc_fake disc_real
      = _get_loss_disc disc_fake false + _get_loss_disc disc_real true
    ∧ eps = 1 / 100000 := by
  refine ⟨?_, rfl, rfl⟩
  simp [get_loss_disc, _get_loss_disc]
  ring

/-- C4: `get_loss_gen(outputs, disc_fake, target)` equals the elementwise
mean squared error `mean((outputs - target)^2)` plus the stabilized
adversarial term `-mean(log(eps + disc_fake))`, with the same `eps = 1e-5`. -/
theorem C4_generator_loss_formula (outputs disc_fake target : List ℝ) :
    get_loss_gen outputs disc_fake target
      = tmean (List.zipWith (fun o t => (o - t) ^ 2) outputs target)
        + -(tmean (disc_fake.map (fun x => Real.log (eps + x))))
    ∧ eps = 1 / 100000 := by
  exact ⟨by simp [get_loss_gen, _get_loss_disc], rfl⟩

/-- C5 counterexample: with `disc_real = [1 - 1e-6]` and `disc_fake = [1e-6]`,
all discriminator output values lie strictly inside `(0,1)`, yet
`get_loss_disc` is strictly negative (both stabilized logs exceed 0 because
`eps + (1 - 1e-6) = eps + 1 - 1e-6 = 1 + 9e-6 > 1`). This refutes the claim
that the loss is strictly positive on all of `(0,1)`. -/
theorem C5_counterexample :
    (0 < (1 : ℝ) / 1000000 ∧ (1 : ℝ) / 1000000 < 1)
    ∧ (0 < 1 - (1 : ℝ) / 1000000 ∧ 1 - (1 : ℝ) / 1000000 < 1)
    ∧ get_loss_disc [(1 : ℝ) / 1000000] [1 - (1 : ℝ) / 1000000] < 0 := by
  refine ⟨⟨by norm_num, by norm_num⟩, ⟨by norm_num, by norm_num⟩, ?_⟩
  have h1 : (1 : ℝ) < eps + 1 - 1 / 1000000 := by norm_num [eps]
  have h2 : (1 : ℝ) < eps + (1 - 1 / 1000000) := by norm_num [eps]
  have l1 : 0 < Real.log (eps + 1 - 1 / 1000000) := Real.log_pos h1
  have l2 : 0 < Real.log (eps + (1 - 1 / 1000000)) := Real.log_pos h2
  have e1 : get_loss_disc [(1 : ℝ) / 1000000] [1 - (1 : ℝ) / 1000000]
      = -(Real.log (eps + 1 - 1 / 1000000)) + -(Real.log (eps + (1 - 1 / 1000000))) := by
    simp [get_loss_disc, _get_loss_disc, tmean]
  rw [e1]
  linarith

/-- C5 amended: for nonempty real/fake discriminator output tensors whose
values all lie strictly inside the narrower open interval `(eps, 1 - eps)`
(with `eps = 1e-5`), `get_loss_disc` is strictly positive. -/
theorem C5_amended_disc_loss_pos (disc_fake disc_real : List ℝ)
    (hfne : disc_fake ≠ []) (hrne : disc_real ≠ [])
    (hf : ∀ x ∈ disc_fake, eps < x ∧ x < 1 - eps)
    (hr : ∀ x ∈ disc_real, eps < x ∧ x < 1 - eps) :
    0 < get_loss_disc disc_fake disc_real := by
  have hfake : 0 < _get_loss_disc disc_fake false := by
    have : tmean (disc_fake.map (fun x => Real.log (eps + 1 - x))) < 0 := by
      apply tmean_neg_of_forall_neg
      · simpa using hfne
      · intro y hy
        rcases List.mem_map.mp hy with ⟨x, hx, rfl⟩
        have hb := hf x hx
        have hlt : eps + 1 - x < 1 := by linarith [hb.1]
        have hpos : 0 < eps + 1 - x := by
          have hx1 : x < 1 - eps := hb.2
          have heps : (0 : ℝ) < eps := by norm_num [eps]
          linarith
        have := Real.log_neg hpos hlt
        linarith
    simp only [_get_loss_disc, Bool.false_eq_true, if_false]
    linarith
  have hreal : 0 < _get_loss_disc disc_real true := by
    have : tmean (disc_real.map (fun x => Real.log (eps + x))) < 0 := by
      apply tmean_neg_of_forall_neg
      · simpa using hrne
      · intro y hy
        rcases List.mem_map.mp hy with ⟨x, hx, rfl⟩
        have hb := hr x hx
        have hlt : eps + x < 1 := by linarith [hb.2]
        have hpos : 0 < eps + x := by
          have : (0 : ℝ) < eps := by norm_num [eps]
          linarith [hb.1]
        have := Real.log_neg hpos hlt
        linarith
    simp only [_get_loss_disc, if_true]
    linarith
  have : get_loss_disc disc_fake disc_real
      = _get_loss_disc disc_fake false + _get_loss_disc disc_real true := rfl
  rw [this]
  linarith

/-- Witness for the amended C5 at the concrete input `[1/2]`, `[1/2]`. -/
theorem C5_amended_witness :
    0 < get_loss_disc [(1 : ℝ) / 2] [(1 : ℝ) / 2] := by
  refine C5_amended_disc_loss_pos [(1 : ℝ) / 2] [(1 : ℝ) / 2]
    (by simp) (by simp) ?_ ?_
  · intro x hx
    have hx2 : x = (1 : ℝ) / 2 := by simpa using hx
    subst hx2
    constructor <;> norm_num [eps]
  · intro x hx
    have hx2 : x = (1 : ℝ) / 2 := by simpa using hx
    subst hx2
    constructor <;> norm_num [eps]

/-- C6: during resume, for every parameter name of the live module the
loader copies the saved tensor exactly when the key is present in the saved
state dict with a matching shape; otherwise the key is recorded as skipped
and the live value is left unchanged; and the load itself succeeds (no
exception) for missing, extra, or shape-incompatible keys. -/
theorem C6_partial_loader (live saved : StateDict)
    (hnd : (live.map Prod.fst).Nodup) (k : String) (tl : Tensor)
    (hk : sfind live k = some tl) :
    load_state_dict live (mergeStateDict live saved)
      = Except.ok (applyLoad live (mergeStateDict live saved))
    ∧ (∀ ts, sfind saved k = some ts → tl.shape = ts.shape →
        sfind (applyLoad live (mergeStateDict live saved)) k = some ts
        ∧ k ∉ skippedKeys live saved)
    ∧ (∀ ts, sfind saved k = some ts → tl.shape ≠ ts.shape →
        sfind (applyLoad live (mergeStateDict live saved)) k = some tl
        ∧ k ∈ skippedKeys live saved)
    ∧ (sfind saved k = none →
        sfind (applyLoad live (mergeStateDict live saved)) k = some tl
        ∧ k ∈ skippedKeys live saved) := by
  refine ⟨?_, ?_, ?_, ?_⟩
  · rw [load_state_dict, if_pos (sizeCompatible_merge live saved hnd)]
  · intro ts hs hsh
    have hm : sfind (mergeStateDict live saved) k = some ts :=
      sfind_merge_of_compat live saved k tl ts hnd hk hs hsh
    exact ⟨sfind_applyLoad_given live _ k tl ts hk hm,
      not_mem_skipped_of_compat live saved k tl ts hnd hk hs hsh⟩
  · intro ts hs hsh
    have hm : sfind (mergeStateDict live saved) k = none := by
      apply sfind_merge_none_of_incompat live saved k hnd
      intro tl2 ts2 hl2 hs2
      rw [hk] at hl2
      injection hl2 with hl2
      rw [hs] at hs2
      injection hs2 with hs2
      rw [← hl2, ← hs2]
      exact hsh
    exact ⟨sfind_applyLoad_not_given live _ k tl hk hm,
      mem_skipped_of_mismatch live saved k tl ts hk hs hsh⟩
  · intro hs
    have hm : sfind (mergeStateDict live saved) k = none := by
      apply sfind_merge_none_of_incompat live saved k hnd
      intro tl2 ts2 _ hs2
      rw [hs] at hs2
      exact absurd hs2 (by simp)
    exact ⟨sfind_applyLoad_not_given live _ k tl hk hm,
      mem_skipped_of_absent live saved k tl hk hs⟩

/-- Witness for C6 at the spec's own example: live parameter `w` of shape
`(4,4)`, saved `w` of shape `(3,3)`; the load succeeds, `w` is skipped, and
the live tensor is unchanged. -/
theorem C6_partial_loader_witness :
    load_state_dict [("w", ⟨[4, 4], [1]⟩)]
        (mergeStateDict [("w", ⟨[4, 4], [1]⟩)] [("w", ⟨[3, 3], [2]⟩)])
      = Except.ok (applyLoad [("w", ⟨[4, 4], [1]⟩)]
          (mergeStateDict [("w", ⟨[4, 4], [1]⟩)] [("w", ⟨[3, 3], [2]⟩)]))
    ∧ sfind (applyLoad [("w", ⟨[4, 4], [1]⟩)]
          (mergeStateDict [("w", ⟨[4, 4], [1]⟩)] [("w", ⟨[3, 3], [2]⟩)])) "w"
        = some ⟨[4, 4], [1]⟩
    ∧ "w" ∈ skippedKeys [("w", ⟨[4, 4], [1]⟩)] [("w", ⟨[3, 3], [2]⟩)] := by
  have h := C6_partial_loader [("w", ⟨[4, 4], [1]⟩)] [("w", ⟨[3, 3], [2]⟩)]
    (by simp) "w" ⟨[4, 4], [1]⟩ rfl
  have h2 := h.2.2.1 ⟨[3, 3], [2]⟩ rfl (by decide)
  exact ⟨h.1, h2.1, h2.2⟩

/-- C2 refuted on the code: a checkpoint holds a saved discriminator tensor
for key `disc.weight` with a shape identical to the live discriminator's,
yet after the resume block runs the discriminator still carries its fresh
value, because line 163 of train_GAN.py loads the merged discriminator dict
into `model` instead of `discriminator`. -/
theorem C2_discriminator_not_restored :
    resumeModelStates freshModel freshDisc [] savedDisc
      = Except.ok ⟨freshModel, freshDisc⟩
    ∧ sfind savedDisc "disc.weight" = some ⟨[2], [5, 7]⟩
    ∧ sfind freshDisc "disc.weight" = some ⟨[2], [0, 0]⟩
    ∧ (Tensor.mk [2] [0, 0]) ≠ (Tensor.mk [2] [5, 7]) := by
  refine ⟨?_, rfl, rfl, by decide⟩
  rfl

/-! ### Remaining claim theorems -/

/-- C1 refuted on the code: for every model, discriminator and batch, the
loop body of `train_GAN` aborts with a `NameError` while building the fake
discriminator input (line 300 reads the undefined `input_resized`), after
only `optimizer_discriminator.zero_grad()`; no discriminator optimizer
step and no generator optimizer step is ever performed on any batch. -/
theorem C1_batch_step_never_updates (model disc : List ℝ → List ℝ)
    (b : GanBatch) :
    (ganBatchStep model disc b).2
      = Except.error "NameError: name input_resized is not defined"
    ∧ (ganBatchStep model disc b).1 = [GanEvent.discZeroGrad]
    ∧ GanEvent.discOptStep ∉ (ganBatchStep model disc b).1
    ∧ GanEvent.genOptStep ∉ (ganBatchStep model disc b).1 := by
  have h1 : (ganBatchStep model disc b).1 = [GanEvent.discZeroGrad] := rfl
  refine ⟨rfl, h1, ?_, ?_⟩
  · rw [h1]
    decide
  · rw [h1]
    decide

/-- C9 refuted on the code: an epoch with zero batches makes the report at
line 317 read the never-bound loop counter `i`, so `train_GAN` raises a
`NameError` instead of emitting a guarded "no data" report. -/
theorem C9_zero_batches_raises (model disc : List ℝ → List ℝ) :
    train_GAN model disc []
      = Except.error "NameError: name i is not defined" := rfl

/-- C7: a run resumed at epoch `N` (checkpoint epoch `N`, hence `N`
already-completed epochs and `N` replay steps) enters the body of epoch
`N` with exactly the scheduler state a fresh run (`beginEpoch = 0`,
`last_epoch = -1`, zero replay steps) has on entering epoch `N`; the
replay performs zero steps when starting fresh and exactly `N` steps when
resuming at epoch `N`. -/
theorem C7_schedule_replay (milestones : List ℤ) (gamma initLR : ℚ)
    (N : ℕ) :
    schedAtEntry milestones gamma initLR N N N
      = schedAtEntry milestones gamma initLR 0 (-1) N
    ∧ (∀ s, replayScheduler milestones gamma (-1) s = s)
    ∧ (∀ s, replayScheduler milestones gamma (N : ℤ) s
        = stepN milestones gamma N s) := by
  refine ⟨?_, fun s => rfl, fun s => by simp [replayScheduler]⟩
  simp only [schedAtEntry, replayScheduler, Int.toNat_natCast,
    Int.toNat_neg_nat, Nat.sub_self, Nat.sub_zero]
  show stepN milestones gamma 1
      (stepN milestones gamma N (MultiStepLR milestones gamma initLR))
    = stepN milestones gamma (N + 1)
      ((stepN milestones gamma 0) (MultiStepLR milestones gamma initLR))
  simp only [stepN]
  exact (stepN_schedStep_comm milestones gamma N _).symm

/-- C8: the best-model decision at lines 209-227 declares an improvement
and writes a checkpoint exactly when `perf_indicator >= best_perf`; in
particular a tie updates the incumbent and writes a checkpoint, and a
strictly smaller metric writes nothing. -/
theorem C8_best_model_decision (perf : ℚ) (s : MainState) :
    ((epochEndUpdate perf s).2 = true ↔ s.best_perf ≤ perf)
    ∧ (epochEndUpdate perf s).1.best_perf
        = (if s.best_perf ≤ perf then perf else s.best_perf)
    ∧ (epochEndUpdate s.best_perf s).2 = true
    ∧ (epochEndUpdate s.best_perf s).1.best_perf = s.best_perf := by
  by_cases hp : s.best_perf ≤ perf
  · exact ⟨by simp [epochEndUpdate, if_pos hp, hp],
      by simp [epochEndUpdate, if_pos hp],
      by simp [epochEndUpdate],
      by simp [epochEndUpdate]⟩
  · exact ⟨by simp [epochEndUpdate, if_neg hp, hp],
      by simp [epochEndUpdate, if_neg hp, hp],
      by simp [epochEndUpdate],
      by simp [epochEndUpdate]⟩

/-- C10: across any sequence of epochs, starting fresh
(`best_perf_01 = 0.0` at line 127) or resumed with any checkpointed best
metric `b` (the resume block never touches `best_perf_01`), the secondary
best metric reported as PCKh at 0.1 stays 0: the per-epoch secondary
indicator is the constant 0 (line 207). -/
theorem C10_best_perf_01_always_zero (perfs : List ℚ) (b : ℚ) :
    (runEpochs perfs { initMainState with best_perf := b }).best_perf_01 = 0
    ∧ perf_indicator_01 = 0 := by
  exact ⟨runEpochs_best_perf_01_invariant perfs _ rfl, rfl⟩

end TrainGAN
